import Mathlib

/-!
Verification of the Printesora sketch (src/printersora.ino).

Arduino `String` values are modelled as `List Char`; the SD byte streams
are modelled as `List Char` consumed from the front; the thermal-printer
collaborator is modelled as a trace of issued calls (`PCall`).
-/

namespace Printesora

/-- Shorthand: the character list of a Lean string literal. -/
def toL (s : String) : List Char := s.data

/-- `CHARSET_USA` from the Adafruit_Thermal library header. -/
def CHARSET_USA : Int := 0

/-- `CODEPAGE_CP437` from the Adafruit_Thermal library header. -/
def CODEPAGE_CP437 : Int := 0

/-- `const String SETTINGS_FILE = "/settings.txt";` -/
def SETTINGS_FILE : List Char := toL ("/settings.txt")

/-- The `Settings` struct (global `configuration`). -/
structure Settings where
  charset : Int
  codePage : Int
  lineHeight : Int
  heatTime : Int
  dotPrintTime : Int
  dotFeedTime : Int
  fontSize : List Char
  jobs : List Char
  deriving Repr, DecidableEq

/-- `Settings::init()`: the hard-coded defaults. -/
def Settings.init : Settings :=
  { charset := CHARSET_USA
    codePage := CODEPAGE_CP437
    lineHeight := 28
    heatTime := 120
    dotPrintTime := 30000
    dotFeedTime := 2100
    fontSize := toL ("S")
    jobs := toL ("/jobs/") }

/-- The `Document` struct (global `document`, the per-job descriptor). -/
structure Document where
  imageWidth : Int
  imageHeight : Int
  image : List Char
  bodyText : List Char
  deriving Repr, DecidableEq

/-- `Document::init()`: the empty/zero job descriptor.  The C++ global is
zero-initialized at program start, which coincides with these values. -/
def Document.init : Document :=
  { imageWidth := 0, imageHeight := 0, image := [], bodyText := [] }

/-- `isspace` characters skipped by `atol` (used by Arduino `String::toInt`). -/
def isSpaceA (c : Char) : Bool :=
  c = ' ' || c = '\t' || c = '\n' || c = Char.ofNat 11 || c = Char.ofNat 12 || c = '\r'

/-- The digit-accumulation loop of `atol`: consume a maximal digit prefix. -/
def readDigits : List Char → Nat → Nat
  | [], acc => acc
  | c :: cs, acc => if c.isDigit then readDigits cs (acc * 10 + (c.toNat - 48)) else acc

/-- Arduino `String::toInt()` = `atol`: skip whitespace, optional sign, then a
maximal digit prefix; a string with no digit prefix yields 0. -/
def toInt (s : List Char) : Int :=
  match s.dropWhile isSpaceA with
  | '-' :: r => -(readDigits r 0 : Int)
  | '+' :: r => (readDigits r 0 : Int)
  | r => (readDigits r 0 : Int)

/-- `applySetting(String settingName, String settingValue)`: the two
else-if dispatch chains over the global `configuration` and `document`. -/
def applySetting (settingName settingValue : List Char) (cfg : Settings)
    (doc : Document) : Settings × Document :=
  let cfg :=
    if settingName = toL ("font_size") then { cfg with fontSize := settingValue }
    else if settingName = toL ("jobs") then { cfg with jobs := settingValue }
    else if settingName = toL ("line_height") then { cfg with lineHeight := toInt settingValue }
    else if settingName = toL ("charset") then { cfg with charset := toInt settingValue }
    else if settingName = toL ("codepage") then { cfg with codePage := toInt settingValue }
    else if settingName = toL ("heat_time") then { cfg with heatTime := toInt settingValue }
    else cfg
  let doc :=
    if settingName = toL ("image") then { doc with image := settingValue }
    else if settingName = toL ("body_text") then { doc with bodyText := settingValue }
    else if settingName = toL ("width") then { doc with imageWidth := toInt settingValue }
    else if settingName = toL ("height") then { doc with imageHeight := toInt settingValue }
    else doc
  (cfg, doc)

/-- Fold a parsed pair list through `applySetting` (pairs are applied in
stream order). -/
def applyAll (ps : List (List Char × List Char)) (st : Settings × Document) :
    Settings × Document :=
  ps.foldl (fun st p => applySetting p.1 p.2 st.1 st.2) st

/-- `File::read()` returns -1 at end of stream; stored into a `char` this is
byte 0xFF, which equals none of the delimiters `[`, `=`, `]`. -/
def eofChar : Char := Char.ofNat 255

/-- One `document.read()`: the next character, or `eofChar` when exhausted. -/
def readChar : List Char → Char × List Char
  | [] => (eofChar, [])
  | c :: cs => (c, cs)

/-- The SEEK loop of `readSettingsFromFile`:
`while (document.available() && character != '[') character = document.read();` -/
def seekLoop : Char → List Char → Char × List Char
  | c, [] => (c, [])
  | c, x :: xs => if c = '[' then (c, x :: xs) else seekLoop x xs

/-- The READ_NAME loop of `readSettingsFromFile`:
`while (available && character != '=') { settingName += character; read; }` -/
def nameLoop : Char → List Char → List Char → Char × List Char × List Char
  | c, acc, [] => (c, acc, [])
  | c, acc, x :: xs => if c = '=' then (c, acc, x :: xs) else nameLoop x (acc ++ [c]) xs

/-- The READ_VALUE loop of `readSettingsFromFile`:
`while (available && character != ']') { settingValue += character; read; }` -/
def valueLoop : Char → List Char → List Char → Char × List Char × List Char
  | c, acc, [] => (c, acc, [])
  | c, acc, x :: xs => if c = ']' then (c, acc, x :: xs) else valueLoop x (acc ++ [c]) xs

/-- One iteration of the outer `while (document.available())` loop of
`readSettingsFromFile`: the first `read` has already produced `x`; run the
seek/name/value loops with the interleaved unconditional reads, and report
the pair to apply (when the final character test `character == ']'` passes)
together with the remaining stream. -/
def readEntry (x : Char) (xs : List Char) :
    Option (List Char × List Char) × List Char :=
  let p1 := seekLoop x xs
  let p2 := readChar p1.2
  let p3 := nameLoop p2.1 [] p2.2
  let p4 := readChar p3.2.2
  let p5 := valueLoop p4.1 [] p4.2
  if p5.1 = ']' then (some (p3.2.1, p5.2.1), p5.2.2) else (none, p5.2.2)

theorem seekLoop_len (c : Char) (s : List Char) :
    (seekLoop c s).2.length ≤ s.length := by
  induction s generalizing c with
  | nil => simp [seekLoop]
  | cons x xs ih =>
    simp only [seekLoop]
    split
    · simp
    · exact le_trans (ih x) (Nat.le_succ _)

theorem readChar_len (s : List Char) : (readChar s).2.length ≤ s.length := by
  cases s <;> simp [readChar]

theorem nameLoop_len (c : Char) (acc s : List Char) :
    (nameLoop c acc s).2.2.length ≤ s.length := by
  induction s generalizing c acc with
  | nil => simp [nameLoop]
  | cons x xs ih =>
    simp only [nameLoop]
    split
    · simp
    · exact le_trans (ih x _) (Nat.le_succ _)

theorem valueLoop_len (c : Char) (acc s : List Char) :
    (valueLoop c acc s).2.2.length ≤ s.length := by
  induction s generalizing c acc with
  | nil => simp [valueLoop]
  | cons x xs ih =>
    simp only [valueLoop]
    split
    · simp
    · exact le_trans (ih x _) (Nat.le_succ _)

theorem readEntry_snd (x : Char) (xs : List Char) :
    (readEntry x xs).2 =
      (valueLoop (readChar (nameLoop (readChar (seekLoop x xs).2).1 []
        (readChar (seekLoop x xs).2).2).2.2).1 []
        (readChar (nameLoop (readChar (seekLoop x xs).2).1 []
          (readChar (seekLoop x xs).2).2).2.2).2).2.2 := by
  simp only [readEntry]
  split <;> rfl

theorem readEntry_len (x : Char) (xs : List Char) :
    (readEntry x xs).2.length ≤ xs.length := by
  have h1 := seekLoop_len x xs
  have h2 := readChar_len (seekLoop x xs).2
  have h3 := nameLoop_len (readChar (seekLoop x xs).2).1 [] (readChar (seekLoop x xs).2).2
  have h4 := readChar_len (nameLoop (readChar (seekLoop x xs).2).1 [] (readChar (seekLoop x xs).2).2).2.2
  have h5 := valueLoop_len (readChar (nameLoop (readChar (seekLoop x xs).2).1 [] (readChar (seekLoop x xs).2).2).2.2).1 []
    (readChar (nameLoop (readChar (seekLoop x xs).2).1 [] (readChar (seekLoop x xs).2).2).2.2).2
  rw [readEntry_snd]
  omega

/-- `readSettingsFromFile(File document)`: consume the whole stream; each
outer-loop iteration parses one bracketed entry and, when the closing `]`
was seen, applies it immediately via `applySetting`. -/
def readSettingsFromFile (s : List Char) (st : Settings × Document) :
    Settings × Document :=
  match s with
  | [] => st
  | x :: xs =>
    let e := readEntry x xs
    let st' :=
      match e.1 with
      | some (nm, vl) => applySetting nm vl st.1 st.2
      | none => st
    readSettingsFromFile e.2 st'
termination_by s.length
decreasing_by
  all_goals
    simp only [List.length_cons]
    exact Nat.lt_succ_of_le (readEntry_len _ _)

/-- The spec's three parser states (§4.1): SEEK_OPEN, READ_NAME (with the
accumulated key), READ_VALUE (with key and accumulated value). -/
inductive Mode where
  | seek : Mode
  | name : List Char → Mode
  | value : List Char → List Char → Mode
  deriving Repr, DecidableEq

/-- Modelled from the spec: one transition of the §4.1 state machine on one
input character, possibly emitting a completed (key, value) pair. -/
def smStep : Mode → Char → Mode × Option (List Char × List Char)
  | Mode.seek, c => (if c = '[' then Mode.name [] else Mode.seek, none)
  | Mode.name acc, c =>
    (if c = '=' then Mode.value acc [] else Mode.name (acc ++ [c]), none)
  | Mode.value nm acc, c =>
    if c = ']' then (Mode.seek, some (nm, acc)) else (Mode.value nm (acc ++ [c]), none)

/-- Modelled from the spec: run the §4.1 state machine over the stream,
collecting the emitted pairs; end-of-stream in any state stops with no
further emission. -/
def runSM : Mode → List Char → List (List Char × List Char)
  | _, [] => []
  | m, c :: cs =>
    match smStep m c with
    | (m', none) => runSM m' cs
    | (m', some p) => p :: runSM m' cs

/-- The sequence of (key, value) pairs the parser emits for a stream. -/
def parsePairs (s : List Char) : List (List Char × List Char) :=
  runSM Mode.seek s

/-- Arduino `String::charAt(i)`: the character at index `i`, or NUL (0)
when the index is out of range. -/
def charAt (s : List Char) (n : Nat) : Char := s.getD n (Char.ofNat 0)

/-- One call issued to the `Adafruit_Thermal` printer collaborator. -/
inductive PCall where
  | begin : Int → PCall
  | setSize : Char → PCall
  | setLineHeight : Int → PCall
  | setCharset : Int → PCall
  | setCodePage : Int → PCall
  | feed : Nat → PCall
  | printBitmap : Int → Int → PCall
  | boldOn : PCall
  | boldOff : PCall
  | justify : Char → PCall
  | println : List Char → PCall
  deriving Repr, DecidableEq

/-- One directory entry returned by `dir.openNextFile()`; job settings are
read directly from the entry handle, so the entry carries its content. -/
structure DirEntry where
  entryName : List Char
  isDirectory : Bool
  content : List Char
  deriving Repr, DecidableEq

/-- The SD-card storage collaborator: existence checks, file opening
(`none` models an open failure), and directory listing. -/
structure SDCard where
  sdExists : List Char → Bool
  openFile : List Char → Option (List Char)
  listEntries : List Char → List DirEntry

/-- `setPrinterParameters()`: pushes the current configuration to the
printer, sending only `fontSize.charAt(0)` for the size. -/
def setPrinterParameters (cfg : Settings) : List PCall :=
  [PCall.begin cfg.heatTime, PCall.setSize (charAt cfg.fontSize 0),
   PCall.setLineHeight cfg.lineHeight, PCall.setCharset cfg.charset,
   PCall.setCodePage cfg.codePage]

/-- Modelled from the spec: `renderBitmap(width, height, byteStream)` reads
one bitmap of the given dimensions from the stream, i.e. `(w+7)/8` bytes
per row for `h` rows (the Adafruit_Thermal stream consumption). -/
def bytesPerBitmap (w h : Int) : Nat := (((w + 7) / 8) * h).toNat

/-- The `while (imageFile.available()) printer.printBitmap(...)` loop of
`printImage`: number of `printBitmap` calls issued for a file of `n`
remaining bytes when each call consumes `chunk` bytes.  `fuel ≥ n`
suffices whenever `chunk ≥ 1`; with `chunk = 0` the C++ loop never
terminates, which the fuel cuts off. -/
def bitmapCalls : Nat → Nat → Nat → Nat
  | _, 0, _ => 0
  | 0, _ + 1, _ => 0
  | fuel + 1, n + 1, chunk => 1 + bitmapCalls fuel (n + 1 - chunk) chunk

/-- `printImage(filename, imageWidth, imageHeigth)`: if the file exists and
opens, feed one line and stream the file to `printBitmap` until it is
exhausted, returning true; otherwise do nothing and return false. -/
def printImage (sd : SDCard) (filename : List Char) (imageWidth imageHeigth : Int) :
    Bool × List PCall :=
  if sd.sdExists filename then
    match sd.openFile filename with
    | some data =>
      (true, PCall.feed 1 ::
        List.replicate (bitmapCalls data.length data.length (bytesPerBitmap imageWidth imageHeigth))
          (PCall.printBitmap imageWidth imageHeigth))
    | none => (false, [])
  else (false, [])

/-- `File::readStringUntil(10)`: read up to and including the next newline
(byte 10), returning the line without the terminator, or everything left
when no newline remains. -/
def readUntilNL : List Char → List Char × List Char
  | [] => ([], [])
  | c :: cs =>
    if c = '\n' then ([], cs)
    else
      let p := readUntilNL cs
      (c :: p.1, p.2)

theorem readUntilNL_len (s : List Char) : (readUntilNL s).2.length ≤ s.length := by
  induction s with
  | nil => simp [readUntilNL]
  | cons c cs ih =>
    simp only [readUntilNL]
    split
    · simp
    · simpa using le_trans ih (Nat.le_succ _)

theorem readUntilNL_len_cons (c : Char) (cs : List Char) :
    (readUntilNL (c :: cs)).2.length ≤ cs.length := by
  simp only [readUntilNL]
  split
  · simp
  · simpa using readUntilNL_len cs

/-- The `while (dataFile.available()) printer.println(readStringUntil(10))`
loop of `printText`. -/
def printLines : List Char → List PCall
  | [] => []
  | x :: xs =>
    PCall.println (readUntilNL (x :: xs)).1 :: printLines (readUntilNL (x :: xs)).2
termination_by s => s.length
decreasing_by
  simp only [List.length_cons]
  exact Nat.lt_succ_of_le (readUntilNL_len_cons _ _)

/-- `printText(filename)`: if the file exists and opens, feed one line,
print the first line bold/centered/size 'M', restore size
`fontSize.charAt(0)`, left justification and bold off, then print every
remaining line; returns whether anything was printed. -/
def printText (sd : SDCard) (cfg : Settings) (filename : List Char) :
    Bool × List PCall :=
  if sd.sdExists filename then
    match sd.openFile filename with
    | some data =>
      (true,
        PCall.feed 1 :: PCall.boldOn :: PCall.justify 'C' :: PCall.setSize 'M' ::
        PCall.println (readUntilNL data).1 ::
        PCall.setSize (charAt cfg.fontSize 0) :: PCall.justify 'L' :: PCall.boldOff ::
        printLines (readUntilNL data).2)
    | none => (false, [])
  else (false, [])

/-- The body of `printFromDirectory`'s entry loop for one non-directory
entry: `document.init(); readSettingsFromFile(entry); setPrinterParameters();
printImage(...); printText(...)`. -/
def printJob (sd : SDCard) (cfg : Settings) (content : List Char) :
    Settings × Document × List PCall :=
  let st := readSettingsFromFile content (cfg, Document.init)
  let pi := printImage sd st.2.image st.2.imageWidth st.2.imageHeight
  let pt := printText sd st.1 st.2.bodyText
  (st.1, st.2, setPrinterParameters st.1 ++ pi.2 ++ pt.2)

/-- The `while (true) { entry = dir.openNextFile(); ... }` loop of
`printFromDirectory`: directory entries are skipped, every other entry is
printed as a job. -/
def jobsLoop (sd : SDCard) : Settings → List DirEntry → Settings × List PCall
  | cfg, [] => (cfg, [])
  | cfg, e :: es =>
    if e.isDirectory then jobsLoop sd cfg es
    else
      let r := printJob sd cfg e.content
      let rest := jobsLoop sd r.1 es
      (rest.1, r.2.2 ++ rest.2)

/-- `printFromDirectory(String directoryName)`: when the directory exists,
iterate its entries printing each non-directory entry as a job; in every
case finish with `printer.feed(2)`.  `directoryName` is passed by value. -/
def printFromDirectory (sd : SDCard) (cfg : Settings) (directoryName : List Char) :
    Settings × List PCall :=
  if sd.sdExists directoryName then
    let r := jobsLoop sd cfg (sd.listEntries directoryName)
    (r.1, r.2 ++ [PCall.feed 2])
  else (cfg, [PCall.feed 2])

/-- `readSDSettings(filename)`: parse the file into the globals when it
exists; otherwise only log an error. -/
def readSDSettings (sd : SDCard) (filename : List Char) (st : Settings × Document) :
    Settings × Document :=
  if sd.sdExists filename then
    match sd.openFile filename with
    | some data => readSettingsFromFile data st
    | none => st
  else st

/-- The configuration phase of `setup()`: `configuration.init();
readSDSettings(SETTINGS_FILE);` (the global `document` is zero-initialized). -/
def loadConfiguration (sd : SDCard) : Settings × Document :=
  readSDSettings sd SETTINGS_FILE (Settings.init, Document.init)

/-- A well-formed entry surrounded by ignored text, as in the spec's
`[k1=v1][k2=v2]…` shape: `text ++ "[" ++ key ++ "=" ++ value ++ "]"`,
followed by the rest of the stream. -/
def mkStream : List (List Char × List Char × List Char) → List Char → List Char
  | [], trail => trail
  | (t, k, v) :: rest, trail =>
    t ++ '[' :: (k ++ '=' :: (v ++ ']' :: mkStream rest trail))

/-- The pairs a list of (text, key, value) entry descriptions denotes. -/
def pairsOf (jobs : List (List Char × List Char × List Char)) :
    List (List Char × List Char) :=
  jobs.map (fun e => (e.2.1, e.2.2))

theorem seekLoop_bridge (s : List Char) : ∀ c : Char,
    ((seekLoop c s).1 = '[' →
      runSM Mode.seek (c :: s) = runSM (Mode.name []) (seekLoop c s).2)
    ∧ ((seekLoop c s).1 ≠ '[' →
      (seekLoop c s).2 = [] ∧ runSM Mode.seek (c :: s) = []) := by
  induction s with
  | nil =>
    intro c
    constructor
    · intro h1
      simp only [seekLoop] at h1 ⊢
      subst h1
      simp [runSM, smStep]
    · intro h1
      simp only [seekLoop] at h1 ⊢
      exact ⟨by trivial, by simp [runSM, smStep, h1]⟩
  | cons x xs ih =>
    intro c
    by_cases hc : c = '['
    · subst hc
      constructor
      · intro _
        simp [seekLoop, runSM, smStep]
      · intro h1
        simp [seekLoop] at h1
    · have hsl : seekLoop c (x :: xs) = seekLoop x xs := by simp [seekLoop, hc]
      have hrs : runSM Mode.seek (c :: x :: xs) = runSM Mode.seek (x :: xs) := by
        simp [runSM, smStep, hc]
      rw [hsl, hrs]
      exact ih x

theorem nameLoop_bridge (s : List Char) : ∀ (c : Char) (acc : List Char),
    (((nameLoop c acc s).1 = '=' →
        runSM (Mode.name acc) (c :: s) =
          runSM (Mode.value (nameLoop c acc s).2.1 []) (nameLoop c acc s).2.2)
     ∧ ((nameLoop c acc s).1 ≠ '=' →
        (nameLoop c acc s).2.2 = [] ∧ runSM (Mode.name acc) (c :: s) = [])) := by
  induction s with
  | nil =>
    intro c acc
    constructor
    · intro h1
      simp only [nameLoop] at h1 ⊢
      subst h1
      simp [runSM, smStep]
    · intro h1
      simp only [nameLoop] at h1 ⊢
      exact ⟨by trivial, by simp [runSM, smStep, h1]⟩
  | cons y ys ih =>
    intro c acc
    by_cases hc : c = '='
    · subst hc
      constructor
      · intro _
        simp [nameLoop, runSM, smStep]
      · intro h1
        simp [nameLoop] at h1
    · have hnl : nameLoop c acc (y :: ys) = nameLoop y (acc ++ [c]) ys := by
        simp [nameLoop, hc]
      have hrs : runSM (Mode.name acc) (c :: y :: ys) =
          runSM (Mode.name (acc ++ [c])) (y :: ys) := by
        simp [runSM, smStep, hc]
      rw [hnl, hrs]
      exact ih y (acc ++ [c])

theorem valueLoop_bridge (s : List Char) : ∀ (c : Char) (nm acc : List Char),
    (((valueLoop c acc s).1 = ']' →
        runSM (Mode.value nm acc) (c :: s) =
          (nm, (valueLoop c acc s).2.1) :: runSM Mode.seek (valueLoop c acc s).2.2)
     ∧ ((valueLoop c acc s).1 ≠ ']' →
        (valueLoop c acc s).2.2 = [] ∧ runSM (Mode.value nm acc) (c :: s) = [])) := by
  induction s with
  | nil =>
    intro c nm acc
    constructor
    · intro h1
      simp only [valueLoop] at h1 ⊢
      subst h1
      simp [runSM, smStep]
    · intro h1
      simp only [valueLoop] at h1 ⊢
      exact ⟨by trivial, by simp [runSM, smStep, h1]⟩
  | cons y ys ih =>
    intro c nm acc
    by_cases hc : c = ']'
    · subst hc
      constructor
      · intro _
        simp [valueLoop, runSM, smStep]
      · intro h1
        simp [valueLoop] at h1
    · have hvl : valueLoop c acc (y :: ys) = valueLoop y (acc ++ [c]) ys := by
        simp [valueLoop, hc]
      have hrs : runSM (Mode.value nm acc) (c :: y :: ys) =
          runSM (Mode.value nm (acc ++ [c])) (y :: ys) := by
        simp [runSM, smStep, hc]
      rw [hvl, hrs]
      exact ih y nm (acc ++ [c])

/-- The READ_NAME stage as used in `readEntry`: an unconditional read
followed by the name loop. -/
theorem name_stage (s : List Char) (acc : List Char) :
    (((nameLoop (readChar s).1 acc (readChar s).2).1 = '=' →
        runSM (Mode.name acc) s =
          runSM (Mode.value (nameLoop (readChar s).1 acc (readChar s).2).2.1 [])
            (nameLoop (readChar s).1 acc (readChar s).2).2.2)
     ∧ ((nameLoop (readChar s).1 acc (readChar s).2).1 ≠ '=' →
        (nameLoop (readChar s).1 acc (readChar s).2).2.2 = [] ∧
          runSM (Mode.name acc) s = [])) := by
  cases s with
  | nil =>
    constructor
    · intro h1
      simp only [readChar, nameLoop] at h1
      exact absurd h1 (by decide)
    · intro h1
      simp only [readChar, nameLoop]
      exact ⟨by trivial, by trivial⟩
  | cons c rest =>
    simpa only [readChar] using nameLoop_bridge rest c acc

/-- The READ_VALUE stage as used in `readEntry`: an unconditional read
followed by the value loop. -/
theorem value_stage (s : List Char) (nm acc : List Char) :
    (((valueLoop (readChar s).1 acc (readChar s).2).1 = ']' →
        runSM (Mode.value nm acc) s =
          (nm, (valueLoop (readChar s).1 acc (readChar s).2).2.1) ::
            runSM Mode.seek (valueLoop (readChar s).1 acc (readChar s).2).2.2)
     ∧ ((valueLoop (readChar s).1 acc (readChar s).2).1 ≠ ']' →
        (valueLoop (readChar s).1 acc (readChar s).2).2.2 = [] ∧
          runSM (Mode.value nm acc) s = [])) := by
  cases s with
  | nil =>
    constructor
    · intro h1
      simp only [readChar, valueLoop] at h1
      exact absurd h1 (by decide)
    · intro h1
      simp only [readChar, valueLoop]
      exact ⟨by trivial, by trivial⟩
  | cons c rest =>
    simpa only [readChar] using valueLoop_bridge rest c nm acc

/-- One outer-loop iteration of the C++ parser agrees with the spec's state
machine: either no pair is reported and the stream is exhausted with no
further state-machine emission, or the reported pair is exactly the next
pair the state machine emits. -/
theorem readEntry_bridge (x : Char) (xs : List Char) :
    ((readEntry x xs).1 = none →
      (readEntry x xs).2 = [] ∧ runSM Mode.seek (x :: xs) = [])
    ∧ (∀ nm vl, (readEntry x xs).1 = some (nm, vl) →
        runSM Mode.seek (x :: xs) =
          (nm, vl) :: runSM Mode.seek (readEntry x xs).2) := by
  have hsb := seekLoop_bridge xs x
  rcases hp1 : seekLoop x xs with ⟨c1, s1⟩
  rw [hp1] at hsb
  simp only at hsb
  have hnb := name_stage s1 []
  rcases hp3 : nameLoop (readChar s1).1 [] (readChar s1).2 with ⟨c3, nm0, s3⟩
  rw [hp3] at hnb
  simp only at hnb
  have hvb := value_stage s3 nm0 []
  rcases hp5 : valueLoop (readChar s3).1 [] (readChar s3).2 with ⟨c5, vl0, s5⟩
  rw [hp5] at hvb
  simp only at hvb
  have hre : readEntry x xs =
      if c5 = ']' then (some (nm0, vl0), s5) else (none, s5) := by
    simp only [readEntry, hp1, hp3, hp5]
  by_cases h1 : c1 = '['
  · have hr1 : runSM Mode.seek (x :: xs) = runSM (Mode.name []) s1 := hsb.1 h1
    by_cases h3 : c3 = '='
    · have hr2 := hnb.1 h3
      by_cases h5 : c5 = ']'
      · have hr3 := hvb.1 h5
        rw [hre]
        simp only [if_pos h5]
        constructor
        · intro hn
          simp at hn
        · intro nm vl hsome
          simp only [Option.some.injEq, Prod.mk.injEq] at hsome
          obtain ⟨rfl, rfl⟩ := hsome
          rw [hr1, hr2, hr3]
      · obtain ⟨hs5, hr3⟩ := hvb.2 h5
        rw [hre]
        simp only [if_neg h5]
        constructor
        · intro _
          exact ⟨hs5, by rw [hr1, hr2, hr3]⟩
        · intro nm vl hsome
          simp at hsome
    · obtain ⟨hs3, hr2⟩ := hnb.2 h3
      rw [hs3] at hp5
      simp only [readChar, valueLoop, Prod.mk.injEq] at hp5
      obtain ⟨h5c, _, h5s⟩ := hp5
      have h5 : c5 ≠ ']' := by
        rw [← h5c]
        decide
      rw [hre]
      simp only [if_neg h5]
      constructor
      · intro _
        exact ⟨h5s.symm, by rw [hr1, hr2]⟩
      · intro nm vl hsome
        simp at hsome
  · obtain ⟨hs1, hr1⟩ := hsb.2 h1
    rw [hs1] at hp3
    simp only [readChar, nameLoop, Prod.mk.injEq] at hp3
    obtain ⟨_, _, h3s⟩ := hp3
    rw [← h3s] at hp5
    simp only [readChar, valueLoop, Prod.mk.injEq] at hp5
    obtain ⟨h5c, _, h5s⟩ := hp5
    have h5 : c5 ≠ ']' := by
      rw [← h5c]
      decide
    rw [hre]
    simp only [if_neg h5]
    constructor
    · intro _
      exact ⟨h5s.symm, hr1⟩
    · intro nm vl hsome
      simp at hsome

/-- The C++ `readSettingsFromFile` applies, in stream order, exactly the
pairs the spec's state machine emits for the same stream. -/
theorem readSettingsFromFile_eq (s : List Char) (st : Settings × Document) :
    readSettingsFromFile s st = applyAll (parsePairs s) st := by
  suffices H : ∀ n (s : List Char) (st : Settings × Document), s.length ≤ n →
      readSettingsFromFile s st = applyAll (parsePairs s) st from
    H s.length s st le_rfl
  intro n
  induction n with
  | zero =>
    intro s st hs
    have hnil : s = [] := List.eq_nil_of_length_eq_zero (Nat.le_zero.mp hs)
    subst hnil
    simp [readSettingsFromFile, parsePairs, runSM, applyAll]
  | succ n ih =>
    intro s st hs
    cases s with
    | nil => simp [readSettingsFromFile, parsePairs, runSM, applyAll]
    | cons x xs =>
      have hstep : readSettingsFromFile (x :: xs) st =
          readSettingsFromFile (readEntry x xs).2
            (match (readEntry x xs).1 with
             | some (nm, vl) => applySetting nm vl st.1 st.2
             | none => st) := by
        rw [readSettingsFromFile]
      obtain ⟨hb_none, hb_some⟩ := readEntry_bridge x xs
      have hlen : (readEntry x xs).2.length ≤ n := by
        have := readEntry_len x xs
        simp only [List.length_cons] at hs
        omega
      cases he : (readEntry x xs).1 with
      | none =>
        obtain ⟨hrest, hrun⟩ := hb_none he
        rw [hstep, he]
        rw [hrest]
        have hpp : parsePairs (x :: xs) = [] := hrun
        rw [hpp]
        simp [readSettingsFromFile, applyAll]
      | some p =>
        obtain ⟨nm, vl⟩ := p
        have hrun := hb_some nm vl he
        rw [hstep, he]
        simp only []
        rw [ih _ _ hlen]
        have hpp : parsePairs (x :: xs) =
            (nm, vl) :: parsePairs (readEntry x xs).2 := hrun
        rw [hpp]
        simp [applyAll]

theorem runSM_seek_skip (t : List Char) (h : '[' ∉ t) (r : List Char) :
    runSM Mode.seek (t ++ r) = runSM Mode.seek r := by
  induction t with
  | nil => rfl
  | cons c cs ih =>
    have hc : c ≠ '[' := fun hc => h (by simp [hc])
    have hcs : '[' ∉ cs := fun hm => h (List.mem_cons_of_mem _ hm)
    calc runSM Mode.seek (c :: (cs ++ r)) = runSM Mode.seek (cs ++ r) := by
          simp [runSM, smStep, hc]
      _ = runSM Mode.seek r := ih hcs

theorem runSM_seek_none (s : List Char) (h : '[' ∉ s) : runSM Mode.seek s = [] := by
  have := runSM_seek_skip s h []
  simpa using this

theorem runSM_name_skip (k : List Char) :
    ∀ acc r : List Char, '=' ∉ k →
      runSM (Mode.name acc) (k ++ '=' :: r) = runSM (Mode.value (acc ++ k) []) r := by
  induction k with
  | nil =>
    intro acc r _
    simp [runSM, smStep]
  | cons c cs ih =>
    intro acc r h
    have hc : c ≠ '=' := fun hc => h (by simp [hc])
    have hcs : '=' ∉ cs := fun hm => h (List.mem_cons_of_mem _ hm)
    calc runSM (Mode.name acc) (c :: (cs ++ '=' :: r))
        = runSM (Mode.name (acc ++ [c])) (cs ++ '=' :: r) := by
          simp [runSM, smStep, hc]
      _ = runSM (Mode.value (acc ++ [c] ++ cs) []) r := ih (acc ++ [c]) r hcs
      _ = runSM (Mode.value (acc ++ c :: cs) []) r := by
          simp

theorem runSM_name_none (s : List Char) :
    ∀ acc : List Char, '=' ∉ s → runSM (Mode.name acc) s = [] := by
  induction s with
  | nil => intro acc _; rfl
  | cons c cs ih =>
    intro acc h
    have hc : c ≠ '=' := fun hc => h (by simp [hc])
    have hcs : '=' ∉ cs := fun hm => h (List.mem_cons_of_mem _ hm)
    calc runSM (Mode.name acc) (c :: cs)
        = runSM (Mode.name (acc ++ [c])) cs := by simp [runSM, smStep, hc]
      _ = [] := ih (acc ++ [c]) hcs

theorem runSM_value_emit (v : List Char) :
    ∀ nm acc r : List Char, ']' ∉ v →
      runSM (Mode.value nm acc) (v ++ ']' :: r) =
        (nm, acc ++ v) :: runSM Mode.seek r := by
  induction v with
  | nil =>
    intro nm acc r _
    simp [runSM, smStep]
  | cons c cs ih =>
    intro nm acc r h
    have hc : c ≠ ']' := fun hc => h (by simp [hc])
    have hcs : ']' ∉ cs := fun hm => h (List.mem_cons_of_mem _ hm)
    calc runSM (Mode.value nm acc) (c :: (cs ++ ']' :: r))
        = runSM (Mode.value nm (acc ++ [c])) (cs ++ ']' :: r) := by
          simp [runSM, smStep, hc]
      _ = (nm, acc ++ [c] ++ cs) :: runSM Mode.seek r := ih nm (acc ++ [c]) r hcs
      _ = (nm, acc ++ c :: cs) :: runSM Mode.seek r := by simp

theorem runSM_value_none (s : List Char) :
    ∀ nm acc : List Char, ']' ∉ s → runSM (Mode.value nm acc) s = [] := by
  induction s with
  | nil => intro nm acc _; rfl
  | cons c cs ih =>
    intro nm acc h
    have hc : c ≠ ']' := fun hc => h (by simp [hc])
    have hcs : ']' ∉ cs := fun hm => h (List.mem_cons_of_mem _ hm)
    calc runSM (Mode.value nm acc) (c :: cs)
        = runSM (Mode.value nm (acc ++ [c])) cs := by simp [runSM, smStep, hc]
      _ = [] := ih nm (acc ++ [c]) hcs

/-- On a stream of well-formed entries interleaved with `[`-free ignored
text, the state machine emits exactly the entries' pairs, in order,
followed by whatever it emits for the remaining stream. -/
theorem runSM_mkStream (jobs : List (List Char × List Char × List Char))
    (trail : List Char)
    (hjobs : ∀ e ∈ jobs, '[' ∉ e.1 ∧ '=' ∉ e.2.1 ∧ ']' ∉ e.2.2) :
    runSM Mode.seek (mkStream jobs trail) =
      pairsOf jobs ++ runSM Mode.seek trail := by
  induction jobs with
  | nil => simp [mkStream, pairsOf]
  | cons e rest ih =>
    obtain ⟨t, k, v⟩ := e
    obtain ⟨ht, hk, hv⟩ := hjobs (t, k, v) (List.mem_cons_self _ _)
    have hrest : ∀ e ∈ rest, '[' ∉ e.1 ∧ '=' ∉ e.2.1 ∧ ']' ∉ e.2.2 :=
      fun e he => hjobs e (List.mem_cons_of_mem _ he)
    calc runSM Mode.seek (t ++ '[' :: (k ++ '=' :: (v ++ ']' :: mkStream rest trail)))
        = runSM Mode.seek ('[' :: (k ++ '=' :: (v ++ ']' :: mkStream rest trail))) :=
          runSM_seek_skip t ht _
      _ = runSM (Mode.name []) (k ++ '=' :: (v ++ ']' :: mkStream rest trail)) := by
          simp [runSM, smStep]
      _ = runSM (Mode.value k []) (v ++ ']' :: mkStream rest trail) := by
          simpa using runSM_name_skip k [] _ hk
      _ = (k, v) :: runSM Mode.seek (mkStream rest trail) := by
          simpa using runSM_value_emit v k [] _ hv
      _ = (k, v) :: (pairsOf rest ++ runSM Mode.seek trail) := by rw [ih hrest]
      _ = pairsOf ((t, k, v) :: rest) ++ runSM Mode.seek trail := by simp [pairsOf]

theorem bitmapCalls_zero (fuel chunk : Nat) : bitmapCalls fuel 0 chunk = 0 := by
  cases fuel <;> rfl

theorem bitmapCalls_one (n chunk : Nat) (h1 : 1 ≤ n) (h2 : n ≤ chunk) :
    bitmapCalls n n chunk = 1 := by
  cases n with
  | zero => omega
  | succ m =>
    have hz : m + 1 - chunk = 0 := by omega
    simp [bitmapCalls, hz, bitmapCalls_zero]

theorem printLines_nil : printLines [] = [] := by
  simp [printLines]

theorem readUntilNL_no_nl (s : List Char) (h : '\n' ∉ s) :
    readUntilNL s = (s, []) := by
  induction s with
  | nil => rfl
  | cons c cs ih =>
    have hc : c ≠ '\n' := fun hc => h (by simp [hc])
    have hcs : '\n' ∉ cs := fun hm => h (List.mem_cons_of_mem _ hm)
    simp [readUntilNL, hc, ih hcs]

theorem readUntilNL_line (l : List Char) (h : '\n' ∉ l) (r : List Char) :
    readUntilNL (l ++ '\n' :: r) = (l, r) := by
  induction l with
  | nil => simp [readUntilNL]
  | cons c cs ih =>
    have hc : c ≠ '\n' := fun hc => h (by simp [hc])
    have hcs : '\n' ∉ cs := fun hm => h (List.mem_cons_of_mem _ hm)
    simp [readUntilNL, hc, ih hcs]

theorem jobsLoop_all_dirs (sd : SDCard) (es : List DirEntry) :
    ∀ cfg : Settings, (∀ e ∈ es, e.isDirectory = true) →
      jobsLoop sd cfg es = (cfg, []) := by
  induction es with
  | nil => intro cfg _; rfl
  | cons e es ih =>
    intro cfg h
    have he : e.isDirectory = true := h e (List.mem_cons_self _ _)
    have hes : ∀ x ∈ es, x.isDirectory = true := fun x hx => h x (List.mem_cons_of_mem _ hx)
    simp [jobsLoop, he, ih cfg hes]

theorem readDigits_zero (l : List Char) (h : ∀ c ∈ l, ¬ c.isDigit) :
    readDigits l 0 = 0 := by
  cases l with
  | nil => rfl
  | cons c cs => simp [readDigits, h c (List.mem_cons_self _ _)]

theorem toInt_no_digit (v : List Char) (h : ∀ c ∈ v, ¬ c.isDigit) : toInt v = 0 := by
  have hsub : ∀ c ∈ v.dropWhile isSpaceA, ¬ c.isDigit := by
    intro c hc
    exact h c ((List.dropWhile_sublist _).subset hc)
  cases hdw : v.dropWhile isSpaceA with
  | nil =>
    simp [toInt, hdw, readDigits]
  | cons c cs =>
    have hall : ∀ x ∈ c :: cs, ¬ x.isDigit := by
      rw [← hdw]
      exact hsub
    have hcs : ∀ x ∈ cs, ¬ x.isDigit := fun x hx => hall x (List.mem_cons_of_mem _ hx)
    simp only [toInt, hdw]
    by_cases hm : c = '-'
    · simp [hm, readDigits_zero cs hcs]
    · by_cases hp : c = '+'
      · simp [hm, hp, readDigits_zero cs hcs]
      · simp [hm, hp, readDigits_zero (c :: cs) hall]

/-- Per-pair frame for the configuration record: a pair only assigns the
field its key maps to, and can never touch `dotPrintTime`/`dotFeedTime`. -/
theorem applySetting_cfg_frame (k v : List Char) (cfg : Settings) (doc : Document) :
    (k ≠ toL ("font_size") → (applySetting k v cfg doc).1.fontSize = cfg.fontSize)
    ∧ (k ≠ toL ("jobs") → (applySetting k v cfg doc).1.jobs = cfg.jobs)
    ∧ (k ≠ toL ("line_height") → (applySetting k v cfg doc).1.lineHeight = cfg.lineHeight)
    ∧ (k ≠ toL ("charset") → (applySetting k v cfg doc).1.charset = cfg.charset)
    ∧ (k ≠ toL ("codepage") → (applySetting k v cfg doc).1.codePage = cfg.codePage)
    ∧ (k ≠ toL ("heat_time") → (applySetting k v cfg doc).1.heatTime = cfg.heatTime)
    ∧ (applySetting k v cfg doc).1.dotPrintTime = cfg.dotPrintTime
    ∧ (applySetting k v cfg doc).1.dotFeedTime = cfg.dotFeedTime := by
  refine ⟨?_, ?_, ?_, ?_, ?_, ?_, ?_, ?_⟩ <;>
    (try intro hne) <;>
    (simp only [applySetting]; split_ifs <;> simp_all)

/-- Keys absent from a pair list leave the corresponding configuration
fields untouched by `applyAll`. -/
theorem applyAll_cfg_frame (ps : List (List Char × List Char)) :
    ∀ st : Settings × Document,
      (toL ("font_size") ∉ ps.map Prod.fst → (applyAll ps st).1.fontSize = st.1.fontSize)
      ∧ (toL ("jobs") ∉ ps.map Prod.fst → (applyAll ps st).1.jobs = st.1.jobs)
      ∧ (toL ("line_height") ∉ ps.map Prod.fst → (applyAll ps st).1.lineHeight = st.1.lineHeight)
      ∧ (toL ("charset") ∉ ps.map Prod.fst → (applyAll ps st).1.charset = st.1.charset)
      ∧ (toL ("codepage") ∉ ps.map Prod.fst → (applyAll ps st).1.codePage = st.1.codePage)
      ∧ (toL ("heat_time") ∉ ps.map Prod.fst → (applyAll ps st).1.heatTime = st.1.heatTime)
      ∧ (applyAll ps st).1.dotPrintTime = st.1.dotPrintTime
      ∧ (applyAll ps st).1.dotFeedTime = st.1.dotFeedTime := by
  induction ps with
  | nil =>
    intro st
    exact ⟨fun _ => rfl, fun _ => rfl, fun _ => rfl, fun _ => rfl, fun _ => rfl,
      fun _ => rfl, rfl, rfl⟩
  | cons p ps ih =>
    intro st
    have happ : applyAll (p :: ps) st = applyAll ps (applySetting p.1 p.2 st.1 st.2) := by
      simp [applyAll]
    have hstep := applySetting_cfg_frame p.1 p.2 st.1 st.2
    have hih := ih (applySetting p.1 p.2 st.1 st.2)
    rw [happ]
    refine ⟨?_, ?_, ?_, ?_, ?_, ?_, ?_, ?_⟩
    · intro hmem
      simp only [List.map_cons, List.mem_cons, not_or] at hmem
      rw [hih.1 hmem.2, hstep.1 (Ne.symm hmem.1)]
    · intro hmem
      simp only [List.map_cons, List.mem_cons, not_or] at hmem
      rw [hih.2.1 hmem.2, hstep.2.1 (Ne.symm hmem.1)]
    · intro hmem
      simp only [List.map_cons, List.mem_cons, not_or] at hmem
      rw [hih.2.2.1 hmem.2, hstep.2.2.1 (Ne.symm hmem.1)]
    · intro hmem
      simp only [List.map_cons, List.mem_cons, not_or] at hmem
      rw [hih.2.2.2.1 hmem.2, hstep.2.2.2.1 (Ne.symm hmem.1)]
    · intro hmem
      simp only [List.map_cons, List.mem_cons, not_or] at hmem
      rw [hih.2.2.2.2.1 hmem.2, hstep.2.2.2.2.1 (Ne.symm hmem.1)]
    · intro hmem
      simp only [List.map_cons, List.mem_cons, not_or] at hmem
      rw [hih.2.2.2.2.2.1 hmem.2, hstep.2.2.2.2.2.1 (Ne.symm hmem.1)]
    · rw [hih.2.2.2.2.2.2.1, hstep.2.2.2.2.2.2.1]
    · rw [hih.2.2.2.2.2.2.2, hstep.2.2.2.2.2.2.2]

/-- C4: applying a (key, value) pair mutates at most one field: each of the
ten recognized keys (case-sensitively) assigns exactly its mapped field of
the Configuration or the Job Descriptor, and any other key leaves both
records entirely unchanged (no error is possible: `applySetting` is total). -/
theorem c4_dispatch_exact :
    (∀ v cfg doc, applySetting (toL ("font_size")) v cfg doc = ({ cfg with fontSize := v }, doc))
    ∧ (∀ v cfg doc, applySetting (toL ("jobs")) v cfg doc = ({ cfg with jobs := v }, doc))
    ∧ (∀ v cfg doc, applySetting (toL ("line_height")) v cfg doc = ({ cfg with lineHeight := toInt v }, doc))
    ∧ (∀ v cfg doc, applySetting (toL ("charset")) v cfg doc = ({ cfg with charset := toInt v }, doc))
    ∧ (∀ v cfg doc, applySetting (toL ("codepage")) v cfg doc = ({ cfg with codePage := toInt v }, doc))
    ∧ (∀ v cfg doc, applySetting (toL ("heat_time")) v cfg doc = ({ cfg with heatTime := toInt v }, doc))
    ∧ (∀ v cfg doc, applySetting (toL ("image")) v cfg doc = (cfg, { doc with image := v }))
    ∧ (∀ v cfg doc, applySetting (toL ("body_text")) v cfg doc = (cfg, { doc with bodyText := v }))
    ∧ (∀ v cfg doc, applySetting (toL ("width")) v cfg doc = (cfg, { doc with imageWidth := toInt v }))
    ∧ (∀ v cfg doc, applySetting (toL ("height")) v cfg doc = (cfg, { doc with imageHeight := toInt v }))
    ∧ (∀ k v cfg doc,
        k ∉ [toL ("font_size"), toL ("jobs"), toL ("line_height"), toL ("charset"),
             toL ("codepage"), toL ("heat_time"), toL ("image"), toL ("body_text"),
             toL ("width"), toL ("height")] →
        applySetting k v cfg doc = (cfg, doc)) := by
  refine ⟨fun v cfg doc => rfl, fun v cfg doc => rfl, fun v cfg doc => rfl,
    fun v cfg doc => rfl, fun v cfg doc => rfl, fun v cfg doc => rfl,
    fun v cfg doc => rfl, fun v cfg doc => rfl, fun v cfg doc => rfl,
    fun v cfg doc => rfl, ?_⟩
  intro k v cfg doc hk
  simp only [List.mem_cons, List.not_mem_nil, or_false, not_or] at hk
  obtain ⟨h1, h2, h3, h4, h5, h6, h7, h8, h9, h10⟩ := hk
  simp [applySetting, h1, h2, h3, h4, h5, h6, h7, h8, h9, h10]

/-- C4 witness: the unrecognized (case-changed) key "Width" leaves both
records unchanged. -/
theorem c4_witness :
    applySetting (toL ("Width")) (toL ("7")) Settings.init Document.init =
      (Settings.init, Document.init) :=
  c4_dispatch_exact.2.2.2.2.2.2.2.2.2.2 (toL ("Width")) (toL ("7"))
    Settings.init Document.init (by decide)

/-- C7: applying a pair with an integer destination field (width, height,
line_height, charset, codepage, heat_time) and a digit-free value string
sets that field to 0; `applySetting` is total, so no error is raised. -/
theorem c7_nonnumeric_zero :
    ∀ (v : List Char) (cfg : Settings) (doc : Document), (∀ c ∈ v, ¬ c.isDigit) →
      (applySetting (toL ("width")) v cfg doc).2.imageWidth = 0
      ∧ (applySetting (toL ("height")) v cfg doc).2.imageHeight = 0
      ∧ (applySetting (toL ("line_height")) v cfg doc).1.lineHeight = 0
      ∧ (applySetting (toL ("charset")) v cfg doc).1.charset = 0
      ∧ (applySetting (toL ("codepage")) v cfg doc).1.codePage = 0
      ∧ (applySetting (toL ("heat_time")) v cfg doc).1.heatTime = 0 := by
  intro v cfg doc h
  have h0 := toInt_no_digit v h
  have e1 : applySetting (toL ("width")) v cfg doc = (cfg, { doc with imageWidth := toInt v }) := rfl
  have e2 : applySetting (toL ("height")) v cfg doc = (cfg, { doc with imageHeight := toInt v }) := rfl
  have e3 : applySetting (toL ("line_height")) v cfg doc = ({ cfg with lineHeight := toInt v }, doc) := rfl
  have e4 : applySetting (toL ("charset")) v cfg doc = ({ cfg with charset := toInt v }, doc) := rfl
  have e5 : applySetting (toL ("codepage")) v cfg doc = ({ cfg with codePage := toInt v }, doc) := rfl
  have e6 : applySetting (toL ("heat_time")) v cfg doc = ({ cfg with heatTime := toInt v }, doc) := rfl
  rw [e1, e2, e3, e4, e5, e6]
  simp [h0]

/-- C7 witness: applying ("width", "abc") sets `imageWidth` to 0. -/
theorem c7_witness :
    (applySetting (toL ("width")) (toL ("abc")) Settings.init Document.init).2.imageWidth = 0 :=
  (c7_nonnumeric_zero (toL ("abc")) Settings.init Document.init (by decide)).1

/-- C5: the Configuration record always holds a complete set of values:
`Settings::init` assigns every field its hard-coded default (charset USA,
codepage CP437, lineHeight 28, heatTime 120, fontSize "S", jobs "/jobs/",
and the two dot times), `setup()` runs it before any override is read, a
missing (or unopenable) global settings file leaves the whole record at the
defaults, and for any settings-file content every field whose key the file
does not apply keeps its default. -/
theorem c5_defaults_complete :
    Settings.init =
      { charset := CHARSET_USA, codePage := CODEPAGE_CP437, lineHeight := 28,
        heatTime := 120, dotPrintTime := 30000, dotFeedTime := 2100,
        fontSize := toL ("S"), jobs := toL ("/jobs/") }
    ∧ (∀ sd : SDCard, sd.sdExists SETTINGS_FILE = false →
        (loadConfiguration sd).1 = Settings.init)
    ∧ (∀ sd : SDCard, sd.openFile SETTINGS_FILE = none →
        (loadConfiguration sd).1 = Settings.init)
    ∧ (∀ (sd : SDCard) (data : List Char), sd.openFile SETTINGS_FILE = some data →
        (toL ("font_size") ∉ (parsePairs data).map Prod.fst →
          (loadConfiguration sd).1.fontSize = toL ("S"))
        ∧ (toL ("jobs") ∉ (parsePairs data).map Prod.fst →
          (loadConfiguration sd).1.jobs = toL ("/jobs/"))
        ∧ (toL ("line_height") ∉ (parsePairs data).map Prod.fst →
          (loadConfiguration sd).1.lineHeight = 28)
        ∧ (toL ("charset") ∉ (parsePairs data).map Prod.fst →
          (loadConfiguration sd).1.charset = CHARSET_USA)
        ∧ (toL ("codepage") ∉ (parsePairs data).map Prod.fst →
          (loadConfiguration sd).1.codePage = CODEPAGE_CP437)
        ∧ (toL ("heat_time") ∉ (parsePairs data).map Prod.fst →
          (loadConfiguration sd).1.heatTime = 120)
        ∧ (loadConfiguration sd).1.dotPrintTime = 30000
        ∧ (loadConfiguration sd).1.dotFeedTime = 2100) := by
  refine ⟨rfl, ?_, ?_, ?_⟩
  · intro sd h
    simp [loadConfiguration, readSDSettings, h]
  · intro sd h
    unfold loadConfiguration readSDSettings
    rw [h]
    split <;> rfl
  · intro sd data h
    by_cases hex : sd.sdExists SETTINGS_FILE = true
    · have hload : loadConfiguration sd =
          readSettingsFromFile data (Settings.init, Document.init) := by
        unfold loadConfiguration readSDSettings
        rw [h, if_pos hex]
      rw [hload, readSettingsFromFile_eq]
      have hf := applyAll_cfg_frame (parsePairs data) (Settings.init, Document.init)
      exact ⟨hf.1, hf.2.1, hf.2.2.1, hf.2.2.2.1, hf.2.2.2.2.1, hf.2.2.2.2.2.1,
        hf.2.2.2.2.2.2.1, hf.2.2.2.2.2.2.2⟩
    · have hload : loadConfiguration sd = (Settings.init, Document.init) := by
        unfold loadConfiguration readSDSettings
        rw [if_neg hex]
      rw [hload]
      exact ⟨fun _ => rfl, fun _ => rfl, fun _ => rfl, fun _ => rfl, fun _ => rfl,
        fun _ => rfl, rfl, rfl⟩

/-- A card holding a global settings file that overrides only
`line_height` and `heat_time` (spec scenario 2). -/
def sdC5 : SDCard :=
  { sdExists := fun p => p == SETTINGS_FILE
    openFile := fun p =>
      if p = SETTINGS_FILE then some (toL ("[line_height=32][heat_time=150]")) else none
    listEntries := fun _ => [] }

/-- C5 witness: with a settings file overriding only line_height and
heat_time, `fontSize` keeps its default "S". -/
theorem c5_witness :
    (loadConfiguration sdC5).1.fontSize = toL ("S") :=
  ((c5_defaults_complete.2.2.2 sdC5 (toL ("[line_height=32][heat_time=150]"))
    (by decide)).1) (by decide)

/-- C1 (amended): for every stream of well-formed entries `[k=v]` (keys and
values free of `[`, `=` and `]`) interleaved with ignored text that
contains no `[`, the parser emits exactly the pairs (k, v) in stream order
(zero-length keys and values included, the empty stream emitting nothing),
and `readSettingsFromFile` applies exactly those pairs via `applySetting`
in that order. -/
theorem c1_wellformed_stream :
    ∀ (jobs : List (List Char × List Char × List Char)) (trail : List Char)
      (st : Settings × Document),
      (∀ e ∈ jobs,
        '[' ∉ e.1
        ∧ ('[' ∉ e.2.1 ∧ '=' ∉ e.2.1 ∧ ']' ∉ e.2.1)
        ∧ ('[' ∉ e.2.2 ∧ '=' ∉ e.2.2 ∧ ']' ∉ e.2.2)) →
      '[' ∉ trail →
      parsePairs (mkStream jobs trail) = pairsOf jobs
      ∧ readSettingsFromFile (mkStream jobs trail) st = applyAll (pairsOf jobs) st := by
  intro jobs trail st hj ht
  have hj' : ∀ e ∈ jobs, '[' ∉ e.1 ∧ '=' ∉ e.2.1 ∧ ']' ∉ e.2.2 := by
    intro e he
    exact ⟨(hj e he).1, (hj e he).2.1.2.1, (hj e he).2.2.2.2⟩
  have hp : parsePairs (mkStream jobs trail) = pairsOf jobs := by
    unfold parsePairs
    rw [runSM_mkStream jobs trail hj', runSM_seek_none trail ht]
    simp
  exact ⟨hp, by rw [readSettingsFromFile_eq, hp]⟩

/-- C1 counterexample: the stream "[[a=b]" — the well-formed entry "[a=b]"
preceded by the interleaved text "[" — makes the parser emit ("[a", "b"):
neither the entry's pair ("a", "b") nor no pair at all, so pairs are not
emitted as claimed when the interleaved text may contain `[`. -/
theorem c1_counterexample :
    parsePairs (toL ("[[a=b]")) = [(toL ("[a"), toL ("b"))]
    ∧ parsePairs (toL ("[[a=b]")) ≠ [(toL ("a"), toL ("b"))]
    ∧ parsePairs (toL ("[[a=b]")) ≠ [] := by
  refine ⟨by decide, by decide, by decide⟩

/-- C1 witness: one entry `[jobs=/myjobs/]` between the texts "xx" and
"yy" parses to its pair and is applied. -/
theorem c1_witness :
    parsePairs (mkStream [(toL ("xx"), toL ("jobs"), toL ("/myjobs/"))] (toL ("yy"))) =
      pairsOf [(toL ("xx"), toL ("jobs"), toL ("/myjobs/"))]
    ∧ readSettingsFromFile
        (mkStream [(toL ("xx"), toL ("jobs"), toL ("/myjobs/"))] (toL ("yy")))
        (Settings.init, Document.init) =
      applyAll (pairsOf [(toL ("xx"), toL ("jobs"), toL ("/myjobs/"))])
        (Settings.init, Document.init) :=
  c1_wellformed_stream [(toL ("xx"), toL ("jobs"), toL ("/myjobs/"))] (toL ("yy"))
    (Settings.init, Document.init) (by decide) (by decide)

/-- C3: a stream of well-formed entries whose final entry reaches
end-of-stream before its terminating character — it is missing its `=`, or
has its `=` but is missing its `]` — contributes no pair: the parser emits
exactly the earlier well-formed pairs and `readSettingsFromFile` applies
exactly those, so the partial pair is never applied and the earlier
applications stand. -/
theorem c3_partial_entry_dropped :
    ∀ (jobs : List (List Char × List Char × List Char)) (t u : List Char)
      (st : Settings × Document),
      (∀ e ∈ jobs, '[' ∉ e.1 ∧ '=' ∉ e.2.1 ∧ ']' ∉ e.2.2) →
      '[' ∉ t →
      ('=' ∉ u ∨ ∃ k v, u = k ++ '=' :: v ∧ '=' ∉ k ∧ ']' ∉ v) →
      parsePairs (mkStream jobs (t ++ '[' :: u)) = pairsOf jobs
      ∧ readSettingsFromFile (mkStream jobs (t ++ '[' :: u)) st =
          applyAll (pairsOf jobs) st := by
  intro jobs t u st hj ht hu
  have htail : runSM Mode.seek (t ++ '[' :: u) = [] := by
    rw [runSM_seek_skip t ht]
    have h1 : runSM Mode.seek ('[' :: u) = runSM (Mode.name []) u := by
      simp [runSM, smStep]
    rw [h1]
    rcases hu with hu | ⟨k, v, rfl, hk, hv⟩
    · exact runSM_name_none u [] hu
    · rw [runSM_name_skip k [] v hk]
      simpa using runSM_value_none v k [] hv
  have hp : parsePairs (mkStream jobs (t ++ '[' :: u)) = pairsOf jobs := by
    unfold parsePairs
    rw [runSM_mkStream jobs _ hj, htail]
    simp
  exact ⟨hp, by rw [readSettingsFromFile_eq, hp]⟩

/-- C3 witness: the stream "[a=b][c=d" (well-formed pair (a,b), then a
final entry missing its `]`) emits and applies exactly (a,b). -/
theorem c3_witness :
    parsePairs (mkStream [([], toL ("a"), toL ("b"))] ([] ++ '[' :: toL ("c=d"))) =
      pairsOf [([], toL ("a"), toL ("b"))]
    ∧ readSettingsFromFile
        (mkStream [([], toL ("a"), toL ("b"))] ([] ++ '[' :: toL ("c=d")))
        (Settings.init, Document.init) =
      applyAll (pairsOf [([], toL ("a"), toL ("b"))]) (Settings.init, Document.init) :=
  c3_partial_entry_dropped [([], toL ("a"), toL ("b"))] [] (toL ("c=d"))
    (Settings.init, Document.init) (by decide) (by decide)
    (Or.inr ⟨toL ("c"), toL ("d"), by decide, by decide, by decide⟩)

/-- C9: only `fontSize.charAt(0)` is ever sent to the printer — both when
pushing parameters per job and when restoring the size after a title line —
so any two font_size values with the same first character behave
identically (e.g. "Small" vs "S"), and the title line's size is always 'M'
regardless of the configured font size. -/
theorem c9_first_char_only :
    (∀ (cfg : Settings) (s t : List Char), charAt s 0 = charAt t 0 →
        setPrinterParameters { cfg with fontSize := s } =
          setPrinterParameters { cfg with fontSize := t })
    ∧ (∀ (sd : SDCard) (cfg : Settings) (s t f : List Char), charAt s 0 = charAt t 0 →
        printText sd { cfg with fontSize := s } f =
          printText sd { cfg with fontSize := t } f)
    ∧ (∀ (sd : SDCard) (cfg : Settings) (f data : List Char),
        sd.sdExists f = true → sd.openFile f = some data →
        (printText sd cfg f).2 =
          PCall.feed 1 :: PCall.boldOn :: PCall.justify 'C' :: PCall.setSize 'M' ::
          PCall.println (readUntilNL data).1 ::
          PCall.setSize (charAt cfg.fontSize 0) :: PCall.justify 'L' :: PCall.boldOff ::
          printLines (readUntilNL data).2) := by
  refine ⟨?_, ?_, ?_⟩
  · intro cfg s t h
    simp [setPrinterParameters, h]
  · intro sd cfg s t f h
    unfold printText
    split
    · cases sd.openFile f with
      | none => rfl
      | some data => simp [h]
    · rfl
  · intro sd cfg f data h1 h2
    simp [printText, h1, h2]

/-- C9 witness: the multi-character font_size "Small" pushes the same
printer parameters as "S". -/
theorem c9_witness :
    setPrinterParameters { Settings.init with fontSize := toL ("Small") } =
      setPrinterParameters { Settings.init with fontSize := toL ("S") } :=
  c9_first_char_only.1 Settings.init (toL ("Small")) (toL ("S")) (by decide)

/-- C10: for every body-text file that exists and opens, the text step
renders a title line before checking whether further content exists and
returns true: a file with no newline (including the empty file, whose title
is the empty string) and a file that is exactly one newline-terminated line
both produce the single bold/centered/'M' title line and zero body lines. -/
theorem c10_title_always :
    ∀ (sd : SDCard) (cfg : Settings) (f data : List Char),
      sd.sdExists f = true → sd.openFile f = some data →
      (printText sd cfg f).1 = true
      ∧ ('\n' ∉ data →
          (printText sd cfg f).2 =
            [PCall.feed 1, PCall.boldOn, PCall.justify 'C', PCall.setSize 'M',
             PCall.println data, PCall.setSize (charAt cfg.fontSize 0),
             PCall.justify 'L', PCall.boldOff])
      ∧ (∀ l, '\n' ∉ l → data = l ++ ['\n'] →
          (printText sd cfg f).2 =
            [PCall.feed 1, PCall.boldOn, PCall.justify 'C', PCall.setSize 'M',
             PCall.println l, PCall.setSize (charAt cfg.fontSize 0),
             PCall.justify 'L', PCall.boldOff])
      ∧ (data = [] →
          (printText sd cfg f).2 =
            [PCall.feed 1, PCall.boldOn, PCall.justify 'C', PCall.setSize 'M',
             PCall.println [], PCall.setSize (charAt cfg.fontSize 0),
             PCall.justify 'L', PCall.boldOff]) := by
  intro sd cfg f data h1 h2
  refine ⟨by simp [printText, h1, h2], ?_, ?_, ?_⟩
  · intro hnl
    have hr : readUntilNL data = (data, []) := readUntilNL_no_nl data hnl
    simp [printText, h1, h2, hr, printLines_nil]
  · intro l hl hdata
    subst hdata
    have hr : readUntilNL (l ++ ['\n']) = (l, []) := by
      simpa using readUntilNL_line l hl []
    simp [printText, h1, h2, hr, printLines_nil]
  · intro hdata
    subst hdata
    have hr : readUntilNL ([] : List Char) = ([], []) := rfl
    simp [printText, h1, h2, hr, printLines_nil]

/-- A card holding an empty body-text file at /empty.txt. -/
def sdC10 : SDCard :=
  { sdExists := fun p => p == toL ("/empty.txt")
    openFile := fun p => if p = toL ("/empty.txt") then some [] else none
    listEntries := fun _ => [] }

/-- C10 witness: printing the empty text file yields true and exactly one
(empty) bold/centered/'M' title line with zero body lines. -/
theorem c10_witness :
    (printText sdC10 Settings.init (toL ("/empty.txt"))).1 = true
    ∧ (printText sdC10 Settings.init (toL ("/empty.txt"))).2 =
        [PCall.feed 1, PCall.boldOn, PCall.justify 'C', PCall.setSize 'M',
         PCall.println [], PCall.setSize (charAt Settings.init.fontSize 0),
         PCall.justify 'L', PCall.boldOff] :=
  ⟨(c10_title_always sdC10 Settings.init (toL ("/empty.txt")) [] (by decide) (by decide)).1,
   (c10_title_always sdC10 Settings.init (toL ("/empty.txt")) [] (by decide) (by decide)).2.2.2 rfl⟩

/-- C6: when the jobs location is missing, or every listed entry is a
directory, the pipeline makes no printer configure or render calls and
issues exactly the single fixed two-line feed; and whatever the jobs ran,
the trace always ends with that one final `feed(2)`. -/
theorem c6_zero_jobs_feed :
    ∀ (sd : SDCard) (cfg : Settings) (d : List Char),
      (sd.sdExists d = false → printFromDirectory sd cfg d = (cfg, [PCall.feed 2]))
      ∧ ((∀ e ∈ sd.listEntries d, e.isDirectory = true) →
          printFromDirectory sd cfg d = (cfg, [PCall.feed 2]))
      ∧ (∃ t, (printFromDirectory sd cfg d).2 = t ++ [PCall.feed 2]) := by
  intro sd cfg d
  refine ⟨?_, ?_, ?_⟩
  · intro h
    simp [printFromDirectory, h]
  · intro h
    by_cases hex : sd.sdExists d = true
    · simp [printFromDirectory, hex, jobsLoop_all_dirs sd (sd.listEntries d) cfg h]
    · simp [printFromDirectory, hex]
  · unfold printFromDirectory
    split
    · exact ⟨(jobsLoop sd cfg (sd.listEntries d)).2, rfl⟩
    · exact ⟨[], rfl⟩

/-- A card whose jobs directory contains only a subdirectory. -/
def sdC6 : SDCard :=
  { sdExists := fun p => p == toL ("/jobs/")
    openFile := fun _ => none
    listEntries := fun p =>
      if p = toL ("/jobs/") then [⟨toL ("sub"), true, []⟩] else [] }

/-- C6 witness: a jobs directory containing only a subdirectory produces
exactly the trace [feed 2] and leaves the configuration unchanged. -/
theorem c6_witness :
    printFromDirectory sdC6 Settings.init (toL ("/jobs/")) =
      (Settings.init, [PCall.feed 2]) :=
  (c6_zero_jobs_feed sdC6 Settings.init (toL ("/jobs/"))).2.1 (by decide)

/-- C8: the directory scanned is fixed when the scan starts: a job settings
file applying the jobs key updates `configuration.jobs` (visible in the
state after that job), yet the remaining iterations still process the
entries listed for the original directory — the new value could only
affect a later scan, because `printFromDirectory` received the path by
value. -/
theorem c8_scan_not_redirected :
    ∀ (sd : SDCard) (cfg : Settings) (e2 : DirEntry),
      sd.sdExists cfg.jobs = true →
      sd.listEntries cfg.jobs = [⟨toL ("j1"), false, toL ("[jobs=/other/]")⟩, e2] →
      e2.isDirectory = false →
      (printJob sd cfg (toL ("[jobs=/other/]"))).1 = { cfg with jobs := toL ("/other/") }
      ∧ (printFromDirectory sd cfg cfg.jobs).2 =
          (printJob sd cfg (toL ("[jobs=/other/]"))).2.2
          ++ (printJob sd { cfg with jobs := toL ("/other/") } e2.content).2.2
          ++ [PCall.feed 2] := by
  intro sd cfg e2 h1 h2 h3
  have hset : readSettingsFromFile (toL ("[jobs=/other/]")) (cfg, Document.init) =
      ({ cfg with jobs := toL ("/other/") }, Document.init) := by
    rw [readSettingsFromFile_eq]
    rfl
  have hcfg1 : (printJob sd cfg (toL ("[jobs=/other/]"))).1 =
      { cfg with jobs := toL ("/other/") } := by
    simp [printJob, hset]
  refine ⟨hcfg1, ?_⟩
  simp [printFromDirectory, h1, h2, jobsLoop, h3, hcfg1]

/-- A card for the C8 witness: two job files in /jobs/, the first
redirecting the jobs key to /other/, the second empty. -/
def sdC8 : SDCard :=
  { sdExists := fun p => p == toL ("/jobs/")
    openFile := fun _ => none
    listEntries := fun p =>
      if p = toL ("/jobs/")
      then [⟨toL ("j1"), false, toL ("[jobs=/other/]")⟩, ⟨toL ("j2"), false, []⟩]
      else [] }

/-- C8 witness: with the default configuration, the first job redirects
jobs to /other/ but the second listed entry of /jobs/ is still processed,
under the updated configuration. -/
theorem c8_witness :
    (printJob sdC8 Settings.init (toL ("[jobs=/other/]"))).1 =
      { Settings.init with jobs := toL ("/other/") }
    ∧ (printFromDirectory sdC8 Settings.init Settings.init.jobs).2 =
        (printJob sdC8 Settings.init (toL ("[jobs=/other/]"))).2.2
        ++ (printJob sdC8 { Settings.init with jobs := toL ("/other/") }
              (DirEntry.mk (toL ("j2")) false []).content).2.2
        ++ [PCall.feed 2] :=
  c8_scan_not_redirected sdC8 Settings.init ⟨toL ("j2"), false, []⟩
    (by decide) (by decide) (by decide)

/-- C2 (amended): for the job settings file
"[image=/img1.bmp][width=384][height=200][body_text=/txt1.txt]" with both
resources existing and readable, the image file non-empty and holding at
most one 384×200 bitmap's worth of bytes (9600), the job issues its
parameter push, then exactly one renderBitmap(384,200) call, then one text
render sequence whose first line is bold/centered/'M' and whose remaining
lines are left-justified, not bold, at the configured font size. -/
theorem c2_single_bitmap_then_text :
    ∀ (sd : SDCard) (cfg : Settings) (img txt : List Char),
      sd.sdExists (toL ("/img1.bmp")) = true →
      sd.openFile (toL ("/img1.bmp")) = some img →
      img ≠ [] → img.length ≤ 9600 →
      sd.sdExists (toL ("/txt1.txt")) = true →
      sd.openFile (toL ("/txt1.txt")) = some txt →
      (printJob sd cfg
        (toL ("[image=/img1.bmp][width=384][height=200][body_text=/txt1.txt]"))).2.2 =
        setPrinterParameters cfg
        ++ [PCall.feed 1, PCall.printBitmap 384 200]
        ++ (PCall.feed 1 :: PCall.boldOn :: PCall.justify 'C' :: PCall.setSize 'M' ::
            PCall.println (readUntilNL txt).1 ::
            PCall.setSize (charAt cfg.fontSize 0) :: PCall.justify 'L' :: PCall.boldOff ::
            printLines (readUntilNL txt).2) := by
  intro sd cfg img txt hi1 hi2 hi3 hi4 ht1 ht2
  have hset : readSettingsFromFile
      (toL ("[image=/img1.bmp][width=384][height=200][body_text=/txt1.txt]"))
      (cfg, Document.init) =
      (cfg, { imageWidth := 384, imageHeight := 200,
              image := toL ("/img1.bmp"), bodyText := toL ("/txt1.txt") }) := by
    rw [readSettingsFromFile_eq]
    rfl
  have hbytes : bytesPerBitmap 384 200 = 9600 := by decide
  have hlen : 1 ≤ img.length := List.length_pos.mpr hi3
  have hone : bitmapCalls img.length img.length (bytesPerBitmap 384 200) = 1 := by
    rw [hbytes]
    exact bitmapCalls_one img.length 9600 hlen hi4
  have himg : printImage sd (toL ("/img1.bmp")) 384 200 =
      (true, [PCall.feed 1, PCall.printBitmap 384 200]) := by
    simp [printImage, hi1, hi2, hone]
  have htxt : printText sd cfg (toL ("/txt1.txt")) =
      (true, PCall.feed 1 :: PCall.boldOn :: PCall.justify 'C' :: PCall.setSize 'M' ::
        PCall.println (readUntilNL txt).1 ::
        PCall.setSize (charAt cfg.fontSize 0) :: PCall.justify 'L' :: PCall.boldOff ::
        printLines (readUntilNL txt).2) := by
    simp [printText, ht1, ht2]
  simp [printJob, hset, himg, htxt]

/-- A card for the C2 witness: a one-byte bitmap stream and a two-line text. -/
def sdC2w : SDCard :=
  { sdExists := fun p => p == toL ("/img1.bmp") || p == toL ("/txt1.txt")
    openFile := fun p =>
      if p = toL ("/img1.bmp") then some [' ']
      else if p = toL ("/txt1.txt") then some (toL ("title\nbody")) else none
    listEntries := fun _ => [] }

/-- C2 witness: with a non-empty image file of at most one bitmap and a
two-line text file, the job trace is the parameter push, one
renderBitmap(384,200), and the title-then-body text sequence. -/
theorem c2_witness :
    (printJob sdC2w Settings.init
      (toL ("[image=/img1.bmp][width=384][height=200][body_text=/txt1.txt]"))).2.2 =
      setPrinterParameters Settings.init
      ++ [PCall.feed 1, PCall.printBitmap 384 200]
      ++ (PCall.feed 1 :: PCall.boldOn :: PCall.justify 'C' :: PCall.setSize 'M' ::
          PCall.println (readUntilNL (toL ("title\nbody"))).1 ::
          PCall.setSize (charAt Settings.init.fontSize 0) :: PCall.justify 'L' ::
          PCall.boldOff :: printLines (readUntilNL (toL ("title\nbody"))).2) :=
  c2_single_bitmap_then_text sdC2w Settings.init [' ']
    (toL ("title\nbody")) (by decide) (by decide) (by decide) (by decide)
    (by decide) (by decide)

/-- Is this printer call a bitmap render? -/
def isBitmapCall : PCall → Bool
  | PCall.printBitmap _ _ => true
  | _ => false

/-- A card for the C2 counterexample: /img1.bmp exists and opens but is
empty; /txt1.txt exists with one line. -/
def sdC2 : SDCard :=
  { sdExists := fun p => p == toL ("/img1.bmp") || p == toL ("/txt1.txt")
    openFile := fun p =>
      if p = toL ("/img1.bmp") then some []
      else if p = toL ("/txt1.txt") then some (toL ("x")) else none
    listEntries := fun _ => [] }

/-- C2 counterexample: both referenced resources exist and are readable
(the image file is empty), yet the job issues zero renderBitmap calls, not
exactly one. -/
theorem c2_counterexample :
    sdC2.sdExists (toL ("/img1.bmp")) = true
    ∧ sdC2.openFile (toL ("/img1.bmp")) = some []
    ∧ sdC2.sdExists (toL ("/txt1.txt")) = true
    ∧ sdC2.openFile (toL ("/txt1.txt")) = some (toL ("x"))
    ∧ ((printJob sdC2 Settings.init
        (toL ("[image=/img1.bmp][width=384][height=200][body_text=/txt1.txt]"))).2.2.countP
          isBitmapCall) = 0 := by
  refine ⟨by decide, by decide, by decide, by decide, ?_⟩
  have hset : readSettingsFromFile
      (toL ("[image=/img1.bmp][width=384][height=200][body_text=/txt1.txt]"))
      (Settings.init, Document.init) =
      (Settings.init,
        Document.mk 384 200 (toL ("/img1.bmp")) (toL ("/txt1.txt"))) := by
    rw [readSettingsFromFile_eq]
    rfl
  have himg : printImage sdC2 (toL ("/img1.bmp")) 384 200 = (true, [PCall.feed 1]) := by
    decide
  have h1t : sdC2.sdExists (toL ("/txt1.txt")) = true := by decide
  have h2t : sdC2.openFile (toL ("/txt1.txt")) = some (toL ("x")) := by decide
  have hr : readUntilNL (toL ("x")) = (toL ("x"), []) := by decide
  have htxt : printText sdC2 Settings.init (toL ("/txt1.txt")) =
      (true, PCall.feed 1 :: PCall.boldOn :: PCall.justify 'C' :: PCall.setSize 'M' ::
        PCall.println (toL ("x")) ::
        PCall.setSize (charAt Settings.init.fontSize 0) :: PCall.justify 'L' ::
        PCall.boldOff :: []) := by
    simp [printText, h1t, h2t, hr, printLines_nil]
  simp [printJob, hset, himg, htxt, setPrinterParameters, isBitmapCall]

end Printesora
